import Mathlib

/-!  Shallow embedding of the ffxiv-tts speech-dispatch client (`main.py`).

The embedding covers the four pure-logic components the specification's
claims are about:

* the text normalizer `replace_strings` (lines 26-37), including the exact
  semantics of the compiled pattern `\b(k1|k2|...)\b` and of `re.sub`;
* the voice/pitch allocator `get_random_voice` / `get_random_pitch`
  (lines 40-67), with the randomness of `random.choice` / `random.randint`
  made explicit as an index parameter;
* the speaker registry `handle_speaker_info` (lines 107-130) and the
  `Say`-event resolution logic of `listen` (lines 159-187), with file reads
  modelled as an `Option (List Speaker)` (`none` = absent or unparseable);
* the artifact-retention routine `cleanup_old_files` (lines 70-83), with the
  directory modelled as a list of entries carrying name, modification time,
  a regular-file flag, and a flag recording whether `os.remove` succeeds.

Fallible operations (`KeyError`, `IndexError`, `OSError` from `os.remove`)
are modelled with `Option` / `Except`.  -/

namespace FfxivTts

/-- ASCII word character, modelling the `\w` class that defines the `\b`
boundaries of the compiled replacement pattern (`main.py` lines 34-36). -/
def isWordChar (c : Char) : Bool := c.isAlphanum || c == '_'

/-- Word-ness of an optional character; `none` (a string edge) counts as
non-word, as for `\b`. -/
def wordAt : Option Char → Bool
  | some c => isWordChar c
  | none => false

/-- `beginsWith k s` holds when the key `k` occurs literally at the head of
`s` (the keys are `re.escape`d, hence literal). -/
def beginsWith : List Char → List Char → Bool
  | [], _ => true
  | _ :: _, [] => false
  | a :: as, b :: bs => a == b && beginsWith as bs

/-- One alternative `k` of the pattern `\b(k1|k2|...)\b` matches at the
current position: `k` occurs literally there and the trailing `\b` holds.
`prevW` records whether the character left of the position is a word
character. -/
def altMatches (prevW : Bool) (s : List Char) (k : List Char) : Bool :=
  beginsWith k s &&
    ((match k.getLast? with
      | some c => isWordChar c
      | none => prevW) != wordAt ((s.drop k.length).head?))

/-- Match of the compiled pattern at the current position: the leading `\b`
must hold, then the first alternative (in dict order) whose literal text and
trailing `\b` match wins -- Python regex alternation is first-match, not
longest-match. -/
def matchAt (alts : List (List Char)) (prevW : Bool) (s : List Char) :
    Option (List Char) :=
  if prevW != wordAt s.head? then alts.find? (altMatches prevW s) else none

/-- The dictionary lookup `replacements[matched]` performed by the
replacement lambda; `none` models a `KeyError`. -/
def lookupCL (d : List (List Char × List Char)) (k : List Char) :
    Option (List Char) :=
  (d.find? (fun p => p.1 == k)).map (fun p => p.2)

/-- The `pattern.sub` scan of `replace_strings` (`main.py` line 37): scan
left to right; at each match emit the dictionary value for the matched text
(`Except.error ()` models the `KeyError` escaping the replacement lambda
when the matched text is not a key, as happens for the empty match produced
by an empty rules dict); after an empty match one character is copied
verbatim and scanning resumes one position later (Python `re.sub`
empty-match rule), after a nonempty match the matched characters are
consumed.  The fuel `n` bounds `s.length`, making the recursion structural;
the bound proof makes the fuel-exhausted case unreachable. -/
def pySubL (d : List (List Char × List Char)) (alts : List (List Char)) :
    (n : Nat) → Bool → (s : List Char) → s.length ≤ n → Except Unit (List Char)
  | _, prevW, [], _ =>
    (match matchAt alts prevW [] with
     | some k =>
       (match lookupCL d k with
        | none => Except.error ()
        | some v => Except.ok v)
     | none => Except.ok [])
  | 0, _, _ :: _, h => absurd h (by simp)
  | n + 1, prevW, c :: rest, h =>
    match matchAt alts prevW (c :: rest) with
    | some k =>
      (match lookupCL d k with
       | none => Except.error ()
       | some v =>
         if hk : k.length = 0 then
           Except.map (fun t => v ++ c :: t)
             (pySubL d alts n (isWordChar c) rest (Nat.le_of_succ_le_succ h))
         else
           Except.map (fun t => v ++ t)
             (pySubL d alts n (wordAt k.getLast?) ((c :: rest).drop k.length)
               (by
                 have h2 : (c :: rest).length ≤ n + 1 := h
                 simp only [List.length_drop, List.length_cons] at h2 ⊢
                 omega)))
    | none =>
      Except.map (fun t => c :: t)
        (pySubL d alts n (isWordChar c) rest (Nat.le_of_succ_le_succ h))

/-- `pattern.sub(repl, text)` run with sufficient fuel. -/
def pySub (d : List (List Char × List Char)) (alts : List (List Char))
    (prevW : Bool) (s : List Char) : Except Unit (List Char) :=
  pySubL d alts s.length prevW s (Nat.le_refl _)

/-- `replace_strings(text, replacements)` (`main.py` lines 26-37): compile
the pattern `\b(k1|k2|...)\b` from the dict keys (joining zero keys with
`|` yields `\b()\b`, whose single alternative is the empty string) and
substitute every match by dictionary lookup of the matched text.
`Except.error ()` models an uncaught `KeyError` from the replacement
lambda. -/
def replace_strings (text : String) (replacements : List (String × String)) :
    Except Unit String :=
  let alts : List (List Char) :=
    if replacements.isEmpty then [[]]
    else replacements.map (fun p => p.1.toList)
  let d : List (List Char × List Char) :=
    replacements.map (fun p => (p.1.toList, p.2.toList))
  Except.map (fun cs => String.mk cs) (pySub d alts false text.toList)

/-- Python `str.lower()`, character by character (the gender keys involved
are ASCII). -/
def pyLower (s : String) : String := String.mk (s.data.map Char.toLower)

/-- Lookup in an ordered association list, modelling a Python `dict` access
(insertion order preserved, keys unique). -/
def lookupAssoc {α : Type} (l : List (String × α)) (k : String) : Option α :=
  (l.find? (fun p => p.1 == k)).map (fun p => p.2)

/-- `random.choice(l)`: the randomness is made explicit as an index `i`; a
nonempty list yields the element at `i % l.length` (every element is reached
by some `i`), and the empty list yields `none`, modelling the `IndexError`
that `random.choice` raises on an empty sequence. -/
def pyChoice {α : Type} (l : List α) (i : Nat) : Option α :=
  l.get? (i % l.length)

/-- `get_random_voice(gender, last_voice)` (`main.py` lines 40-51).
`voicesCfg` is `config["voices"]`.  The default argument
`config["voices"]["male"]` of `dict.get` is evaluated eagerly, so a missing
`male` key is a `KeyError` (`none`) regardless of `gender`.  The exclusion
of `last_voice` is guarded by Python truthiness (`if last_voice:`), so an
empty-string `last_voice` disables it.  `none` models an uncaught
`KeyError`/`IndexError`. -/
def get_random_voice (voicesCfg : List (String × List String)) (gender : String)
    (last_voice : Option String) (i : Nat) : Option String :=
  match lookupAssoc voicesCfg "male" with
  | none => none
  | some malePool =>
    let avail0 := (lookupAssoc voicesCfg (pyLower gender)).getD malePool
    let avail :=
      match last_voice with
      | some lv => if lv == "" then avail0 else avail0.filter (fun v => v != lv)
      | none => avail0
    pyChoice avail i

/-- `random.randint(a, b)` (both ends inclusive), with the randomness made
explicit as an index `i`: the result is `a + i % (b - a + 1)`. -/
def pyRandint (a b : Int) (i : Nat) : Int :=
  a + (i % (b - a + 1).toNat : Nat)

/-- The integer pitch chosen by `get_random_pitch` (`main.py` lines 61-66)
before formatting. -/
def get_random_pitch_val (race : String) (i : Nat) : Int :=
  if race = "Lalafell" then pyRandint 10 20 i
  else if race = "Roegadyn" then pyRandint (-20) (-10) i
  else pyRandint (-10) 10 i

/-- The Python format `f"{pitch:+}"`: the sign is always printed. -/
def formatSigned (n : Int) : String :=
  if 0 ≤ n then "+" ++ toString n.toNat else "-" ++ toString (-n).toNat

/-- `get_random_pitch(race)` (`main.py` lines 54-67): pick the pitch for the
race category and return it formatted with an explicit sign. -/
def get_random_pitch (race : String) (i : Nat) : String :=
  formatSigned (get_random_pitch_val race i)

/-- A persisted speaker assignment: one object of the speaker store's JSON
array `{name, gender, race, voice, pitch}` (`pitch` is stored as the
formatted string `get_random_pitch` returns). -/
structure Speaker where
  name : String
  gender : String
  race : String
  voice : String
  pitch : String
deriving DecidableEq

/-- `handle_speaker_info(speaker_info, speaker_file_path)` (`main.py` lines
107-130).  The file read is modelled by `fileContents : Option (List
Speaker)`; `none` stands for `FileNotFoundError` or `json.JSONDecodeError`,
both of which the code turns into an empty list.  Returns the stored list
after the call together with whether a write was performed: the record is
appended (and the whole file rewritten) only when no stored record agrees
with it on all of name, gender and race. -/
def handle_speaker_info (info : Speaker) (fileContents : Option (List Speaker)) :
    List Speaker × Bool :=
  let speaker_data := fileContents.getD []
  if speaker_data.any (fun s =>
      s.name == info.name && s.gender == info.gender && s.race == info.race) then
    (speaker_data, false)
  else
    (speaker_data ++ [info], true)

/-- Outcome of resolving one `Say` event: the voice and pitch used for
synthesis, the speaker-store contents after the event, the number of
registry writes performed, and the updated `last_voice` loop variable. -/
structure SayResult where
  voice : String
  pitch : String
  store : List Speaker
  writes : Nat
  last_voice : Option String
deriving DecidableEq

/-- The speaker-resolution portion of the `Say` branch of `listen`
(`main.py` lines 159-187).  The store file is read fresh (`fileContents`,
`none` = absent/unparseable, treated as empty); the first stored record
matching the event's name and race is reused verbatim with no write;
otherwise a voice (excluding `last_voice`) and a pitch are drawn, the
record is inserted via `handle_speaker_info`, and `last_voice` is updated.
`i` and `j` are the explicit randomness for voice and pitch; `none` models
an uncaught `KeyError`/`IndexError` from `get_random_voice`. -/
def resolveSay (voicesCfg : List (String × List String))
    (speaker_name gender race : String) (last_voice : Option String)
    (fileContents : Option (List Speaker)) (i j : Nat) : Option SayResult :=
  let speaker_data := fileContents.getD []
  match speaker_data.find? (fun s => s.name == speaker_name && s.race == race) with
  | some s => some ⟨s.voice, s.pitch, speaker_data, 0, last_voice⟩
  | none =>
    match get_random_voice voicesCfg gender last_voice i with
    | none => none
    | some voice =>
      let pitch := get_random_pitch race j
      let info : Speaker := ⟨speaker_name, gender, race, voice, pitch⟩
      let result := handle_speaker_info info fileContents
      some ⟨voice, pitch, result.1, if result.2 then 1 else 0, some voice⟩

/-- One entry of the output directory, as seen by `cleanup_old_files`:
path name, modification time, whether it is a regular file, and whether
`os.remove` on it succeeds (`false` models an `OSError`). -/
structure DirEntry where
  name : String
  mtime : Nat
  isFile : Bool
  removeOk : Bool
deriving DecidableEq

/-- Python's slice `l[:-k]` for `k ≥ 0`: everything but the last `k`
elements -- except that `k = 0` gives `l[:0] = []`, since `-0 = 0`. -/
def pySliceToNeg {α : Type} (l : List α) (k : Nat) : List α :=
  if k = 0 then [] else l.take (l.length - k)

/-- The regular files of the directory, as `cleanup_old_files` collects
them (`main.py` line 77). -/
def filesOf (entries : List DirEntry) : List DirEntry :=
  entries.filter (fun e => e.isFile)

/-- The sort key of `files.sort(key=os.path.getmtime)`: modification time,
compared non-strictly. -/
def mtimeLe (a b : DirEntry) : Prop := a.mtime ≤ b.mtime

instance : DecidableRel mtimeLe := fun a b => Nat.decLe a.mtime b.mtime

instance : IsTotal DirEntry mtimeLe := ⟨fun a b => Nat.le_total a.mtime b.mtime⟩

instance : IsTrans DirEntry mtimeLe := ⟨fun _ _ _ => Nat.le_trans⟩

/-- The list `old_files = files[:-max_files]` after the mtime-ascending sort
(`main.py` lines 79-80).  Python `list.sort` is stable; `insertionSort` with
a non-strict key is a stable sort, hence computes the same list. -/
def deletionList (entries : List DirEntry) (max_files : Nat) : List DirEntry :=
  pySliceToNeg (List.insertionSort mtimeLe (filesOf entries)) max_files

/-- The deletion loop (`main.py` lines 81-83): `os.remove` each listed file
in order; a failing removal raises immediately (there is no handler), the
remaining files are not removed.  On success the directory no longer holds
an entry with that name. -/
def removeLoop (old : List DirEntry) (st : List DirEntry) :
    Except String (List DirEntry) :=
  match old with
  | [] => Except.ok st
  | f :: rest =>
    if f.removeOk then removeLoop rest (st.filter (fun e => e.name != f.name))
    else Except.error f.name

/-- `cleanup_old_files(directory, max_files)` (`main.py` lines 70-83):
if the regular-file count exceeds `max_files`, delete `files[:-max_files]`
oldest-first.  Returns the resulting directory state, or `Except.error`
carrying the path whose removal raised. -/
def cleanup_old_files (entries : List DirEntry) (max_files : Nat) :
    Except String (List DirEntry) :=
  if (filesOf entries).length > max_files then
    removeLoop (deletionList entries max_files) entries
  else Except.ok entries

example : replace_strings "hello" [] = Except.error () := rfl
example : replace_strings "" [] = Except.ok "" := rfl
example : replace_strings "!!!" [] = Except.ok "!!!" := rfl
example : replace_strings "ab a" [("a", "X"), ("ab", "Y")] = Except.ok "Y X" := rfl
example : replace_strings "ab a" [("ab", "Y"), ("a", "X")] = Except.ok "Y X" := rfl
example : replace_strings "hello" [("", "Z")] = Except.ok "ZhelloZ" := rfl
example : replace_strings "a b" [("", "Z")] = Except.ok "ZaZ ZbZ" := rfl
example : get_random_voice [("male", ["v"])] "male" (some "v") 0 = none := rfl
example : get_random_voice [("male", ["", "a"])] "male" (some "") 0 = some "" := rfl
example : get_random_voice [("male", ["a", "b"])] "Other" none 1 = some "b" := rfl
example : get_random_voice [("male", ["a"]), ("female", ["f"])] "Female" none 0 = some "f" := rfl
example : get_random_pitch "Lalafell" 0 = "+10" := rfl
example : get_random_pitch "Roegadyn" 0 = "-20" := rfl
example : get_random_pitch "Unknown" 10 = "+0" := rfl
example : cleanup_old_files [⟨"a", 0, true, true⟩] 0 = Except.ok [⟨"a", 0, true, true⟩] := rfl
example : cleanup_old_files [⟨"a", 1, true, true⟩, ⟨"b", 2, true, true⟩] 1 =
    Except.ok [⟨"b", 2, true, true⟩] := rfl
example : cleanup_old_files [⟨"b", 2, true, true⟩, ⟨"a", 1, true, false⟩] 1 =
    Except.error "a" := rfl

/-! ### Helper lemmas -/

/-- `random.randint(a, b)` always lands in the inclusive range `[a, b]`. -/
theorem pyRandint_mem (a b : Int) (i : Nat) (hab : a ≤ b) :
    a ≤ pyRandint a b i ∧ pyRandint a b i ≤ b := by
  unfold pyRandint
  have hpos : 0 < (b - a + 1).toNat := by omega
  have h2 : i % (b - a + 1).toNat < (b - a + 1).toNat := Nat.mod_lt _ hpos
  omega

/-- `f"{n:+}"` starts with an explicit sign character. -/
theorem formatSigned_head (n : Int) :
    (formatSigned n).data.head? = some '+' ∨ (formatSigned n).data.head? = some '-' := by
  unfold formatSigned
  by_cases h : (0 : Int) ≤ n
  · left
    rw [if_pos h, String.data_append]
    rfl
  · right
    rw [if_neg h, String.data_append]
    rfl

/-! ### Claim theorems -/

/-- Claim C1 (code bug): the claim says that with an empty replacement-rules
mapping, `replace_strings` returns the text unchanged and raises no error.
The code instead compiles the pattern `\b()\b` (joining zero keys), whose
empty alternative matches at the first word boundary, and the replacement
lambda then evaluates `replacements[""]` on the empty dict -- an uncaught
`KeyError`.  On input text `"hello"` with empty rules the call raises
instead of returning `"hello"`. -/
theorem replace_strings_empty_rules_raises :
    replace_strings "hello" [] = Except.error () := rfl

/-- Claim C2: if the store already holds a record for the event's
(name, race) pair, resolving a `Say` event returns exactly the first stored
record's (voice, pitch), leaves the store unchanged, performs zero registry
writes, and leaves `last_voice` untouched -- hence every subsequent resolve
for the pair returns the identical pair again. -/
theorem resolve_known_pair_reuses_stored
    (voicesCfg : List (String × List String)) (nm gender race : String)
    (last_voice : Option String) (data : List Speaker) (i j : Nat) (s0 : Speaker)
    (h : data.find? (fun s => s.name == nm && s.race == race) = some s0) :
    resolveSay voicesCfg nm gender race last_voice (some data) i j
      = some ⟨s0.voice, s0.pitch, data, 0, last_voice⟩ := by
  unfold resolveSay
  simp only [Option.getD_some, h]

/-- Witness for C2 at a concrete store. -/
theorem resolve_known_pair_reuses_stored_witness :
    resolveSay [("male", ["m1"])] "Kan" "Female" "Lalafell" none
        (some [⟨"Kan", "Female", "Lalafell", "f1", "+12"⟩]) 0 0
      = some ⟨"f1", "+12", [⟨"Kan", "Female", "Lalafell", "f1", "+12"⟩], 0, none⟩ :=
  resolve_known_pair_reuses_stored [("male", ["m1"])] "Kan" "Female" "Lalafell"
    none [⟨"Kan", "Female", "Lalafell", "f1", "+12"⟩] 0 0
    ⟨"Kan", "Female", "Lalafell", "f1", "+12"⟩ (by decide)

/-- Claim C8: a failed read of the speaker store (file absent or
unparseable, modelled as `none`) is handled exactly like an empty registry,
both in `handle_speaker_info` and in the `Say` resolution of `listen`:
processing continues as if no assignments exist. -/
theorem read_failure_as_empty_registry :
    (∀ info : Speaker,
        handle_speaker_info info none = handle_speaker_info info (some [])) ∧
      ∀ (voicesCfg : List (String × List String)) (nm gender race : String)
        (last_voice : Option String) (i j : Nat),
        resolveSay voicesCfg nm gender race last_voice none i j
          = resolveSay voicesCfg nm gender race last_voice (some []) i j :=
  ⟨fun _ => rfl, fun _ _ _ _ _ _ _ => rfl⟩

/-- Claim C10: an insert through `handle_speaker_info` only ever appends at
the end of the stored sequence: the prior contents are a prefix of the
result unchanged, and the result is either exactly the prior contents or
the prior contents with the new record appended. -/
theorem handle_speaker_info_append_only (info : Speaker)
    (fileContents : Option (List Speaker)) :
    ((handle_speaker_info info fileContents).1).take (fileContents.getD []).length
        = fileContents.getD [] ∧
      ((handle_speaker_info info fileContents).1 = fileContents.getD [] ∨
        (handle_speaker_info info fileContents).1
          = fileContents.getD [] ++ [info]) := by
  unfold handle_speaker_info
  by_cases hany : (fileContents.getD []).any (fun s =>
      s.name == info.name && s.gender == info.gender && s.race == info.race)
  · rw [if_pos hany]
    exact ⟨List.take_length _, Or.inl rfl⟩
  · rw [if_neg hany]
    exact ⟨List.take_left _ _, Or.inr rfl⟩

/-- Claim C5: `get_random_pitch` draws its integer pitch in [10, 20] for
race "Lalafell", in [-20, -10] for "Roegadyn", and in [-10, 10] for any
other race string; the returned string is that integer formatted with its
sign always shown. -/
theorem get_random_pitch_range_and_format (race : String) (i : Nat) :
    (race = "Lalafell" →
      10 ≤ get_random_pitch_val race i ∧ get_random_pitch_val race i ≤ 20) ∧
    (race = "Roegadyn" →
      -20 ≤ get_random_pitch_val race i ∧ get_random_pitch_val race i ≤ -10) ∧
    (race ≠ "Lalafell" → race ≠ "Roegadyn" →
      -10 ≤ get_random_pitch_val race i ∧ get_random_pitch_val race i ≤ 10) ∧
    get_random_pitch race i = formatSigned (get_random_pitch_val race i) ∧
    ((get_random_pitch race i).data.head? = some '+' ∨
      (get_random_pitch race i).data.head? = some '-') := by
  refine ⟨?_, ?_, ?_, rfl, formatSigned_head _⟩
  · intro h1
    unfold get_random_pitch_val
    rw [if_pos h1]
    exact pyRandint_mem 10 20 i (by omega)
  · intro h2
    unfold get_random_pitch_val
    rw [if_neg (by rw [h2]; decide), if_pos h2]
    exact pyRandint_mem (-20) (-10) i (by omega)
  · intro h1 h2
    unfold get_random_pitch_val
    rw [if_neg h1, if_neg h2]
    exact pyRandint_mem (-10) 10 i (by omega)

/-- Witness for C5 at concrete race strings and randomness. -/
theorem get_random_pitch_range_and_format_witness :
    (10 ≤ get_random_pitch_val "Lalafell" 3 ∧ get_random_pitch_val "Lalafell" 3 ≤ 20) ∧
      (-20 ≤ get_random_pitch_val "Roegadyn" 7 ∧ get_random_pitch_val "Roegadyn" 7 ≤ -10) ∧
      (-10 ≤ get_random_pitch_val "Elezen" 5 ∧ get_random_pitch_val "Elezen" 5 ≤ 10) :=
  ⟨(get_random_pitch_range_and_format "Lalafell" 3).1 rfl,
    (get_random_pitch_range_and_format "Roegadyn" 7).2.1 rfl,
    (get_random_pitch_range_and_format "Elezen" 5).2.2.1 (by decide) (by decide)⟩

/-- Claim C7: `handle_speaker_info` appends its record only when no stored
record agrees with it on all of (name, gender, race); consequently the
uniqueness of that triple across the store is preserved by every insert. -/
theorem handle_speaker_info_preserves_unique_triple (info : Speaker)
    (data : List Speaker)
    (h : data.Pairwise (fun a b =>
      (a.name, a.gender, a.race) ≠ (b.name, b.gender, b.race))) :
    ((handle_speaker_info info (some data)).1).Pairwise (fun a b =>
        (a.name, a.gender, a.race) ≠ (b.name, b.gender, b.race)) ∧
      ((handle_speaker_info info (some data)).2 = true ↔
        ∀ s ∈ data,
          ¬(s.name = info.name ∧ s.gender = info.gender ∧ s.race = info.race)) := by
  unfold handle_speaker_info
  simp only [Option.getD_some]
  by_cases hany : data.any (fun s =>
      s.name == info.name && s.gender == info.gender && s.race == info.race)
  · rw [if_pos hany]
    refine ⟨h, iff_of_false (by simp) ?_⟩
    intro hall
    rw [List.any_eq_true] at hany
    obtain ⟨s, hs, hb⟩ := hany
    simp only [Bool.and_eq_true, beq_iff_eq] at hb
    exact hall s hs ⟨hb.1.1, hb.1.2, hb.2⟩
  · rw [if_neg hany]
    have hnone : ∀ s ∈ data,
        ¬(s.name = info.name ∧ s.gender = info.gender ∧ s.race = info.race) := by
      intro s hs hc
      apply hany
      rw [List.any_eq_true]
      exact ⟨s, hs, by simp [hc.1, hc.2.1, hc.2.2]⟩
    constructor
    · rw [List.pairwise_append]
      refine ⟨h, List.pairwise_singleton _ _, ?_⟩
      intro a ha b hb
      rw [List.mem_singleton] at hb
      subst hb
      intro hc
      rw [Prod.mk.injEq, Prod.mk.injEq] at hc
      exact hnone a ha ⟨hc.1, hc.2.1, hc.2.2⟩
    · exact iff_of_true rfl hnone

/-- Witness for C7 at a concrete store and record. -/
theorem handle_speaker_info_preserves_unique_triple_witness :
    (((handle_speaker_info ⟨"A", "Male", "Hyur", "v1", "+1"⟩
          (some [⟨"B", "Female", "Lalafell", "v2", "+15"⟩])).1).Pairwise (fun a b =>
        (a.name, a.gender, a.race) ≠ (b.name, b.gender, b.race))) ∧
      ((handle_speaker_info ⟨"A", "Male", "Hyur", "v1", "+1"⟩
          (some [⟨"B", "Female", "Lalafell", "v2", "+15"⟩])).2 = true ↔
        ∀ s ∈ [(⟨"B", "Female", "Lalafell", "v2", "+15"⟩ : Speaker)],
          ¬(s.name = "A" ∧ s.gender = "Male" ∧ s.race = "Hyur")) :=
  handle_speaker_info_preserves_unique_triple ⟨"A", "Male", "Hyur", "v1", "+1"⟩
    [⟨"B", "Female", "Lalafell", "v2", "+15"⟩] (by decide)

/-- Claim C4 (counterexample): with a male pool of exactly `["v"]` and
`exclude = "v"`, the code does not skip the exclusion: it filters the
candidate list down to empty and `random.choice` raises `IndexError`
(modelled as `none`), so no voice is returned at all. -/
theorem get_random_voice_singleton_exclude_counterexample :
    get_random_voice [("male", ["v"])] "male" (some "v") 0 = none := rfl

/-- Claim C4 (amended): when the pool resolved for the gender consists of
exactly the excluded voice (and the exclude value is a non-empty string, so
the truthiness guard applies it), `get_random_voice` does not fall back to
the unfiltered pool: the candidate set becomes empty and the call fails
with an `IndexError` instead of returning a voice. -/
theorem get_random_voice_singleton_exclude_fails
    (voicesCfg : List (String × List String)) (gender v : String)
    (malePool : List String)
    (h1 : lookupAssoc voicesCfg "male" = some malePool)
    (h2 : (lookupAssoc voicesCfg (pyLower gender)).getD malePool = [v])
    (h3 : v ≠ "") (i : Nat) :
    get_random_voice voicesCfg gender (some v) i = none := by
  unfold get_random_voice
  rw [h1]
  simp only [h2]
  rw [if_neg (by simpa using h3)]
  simp [pyChoice]

/-- Witness for the amended C4 at a concrete configuration. -/
theorem get_random_voice_singleton_exclude_fails_witness :
    get_random_voice [("male", ["v"])] "male" (some "v") 5 = none :=
  get_random_voice_singleton_exclude_fails [("male", ["v"])] "male" "v" ["v"]
    rfl rfl (by decide) 5

/-- Claim C6 (counterexample): the pool for gender "male" is `["", "a"]`
(two entries) and the excluded voice is the empty string; Python's
`if last_voice:` treats it as falsy, so the exclusion is skipped and the
call returns the excluded voice itself. -/
theorem get_random_voice_empty_exclude_counterexample :
    ((lookupAssoc [("male", ["", "a"])] "male").getD []).length > 1 ∧
      get_random_voice [("male", ["", "a"])] "male" (some "") 0 = some "" :=
  ⟨by decide, rfl⟩

/-- Claim C6 (amended): for every gender whose resolved pool (case-lowered
lookup, falling back to the male pool for an unknown gender) has more than
one entry, and every *non-empty* exclude value, `get_random_voice` never
returns the excluded voice, and any voice it returns is drawn from that
pool.  (An empty-string exclude is dropped by the `if last_voice:`
truthiness test and can be returned.) -/
theorem get_random_voice_avoids_nonempty_exclude
    (voicesCfg : List (String × List String)) (gender ex : String)
    (malePool pool : List String)
    (h1 : lookupAssoc voicesCfg "male" = some malePool)
    (h2 : (lookupAssoc voicesCfg (pyLower gender)).getD malePool = pool)
    (_h3 : 1 < pool.length) (h4 : ex ≠ "") (i : Nat) :
    get_random_voice voicesCfg gender (some ex) i ≠ some ex ∧
      ∀ v, get_random_voice voicesCfg gender (some ex) i = some v → v ∈ pool := by
  have key : ∀ v, get_random_voice voicesCfg gender (some ex) i = some v →
      v ∈ pool.filter (fun x => x != ex) := by
    intro v hv
    unfold get_random_voice at hv
    rw [h1] at hv
    simp only [h2] at hv
    rw [if_neg (by simpa using h4)] at hv
    exact List.get?_mem hv
  constructor
  · intro hcon
    have hmem := key ex hcon
    rw [List.mem_filter] at hmem
    simp at hmem
  · intro v hv
    exact (List.mem_filter.mp (key v hv)).1

/-- Witness for the amended C6 at a concrete configuration. -/
theorem get_random_voice_avoids_nonempty_exclude_witness :
    get_random_voice [("male", ["a", "b"])] "male" (some "a") 0 ≠ some "a" ∧
      ∀ v, get_random_voice [("male", ["a", "b"])] "male" (some "a") 0 = some v →
        v ∈ ["a", "b"] :=
  get_random_voice_avoids_nonempty_exclude [("male", ["a", "b"])] "male" "a"
    ["a", "b"] ["a", "b"] rfl rfl (by decide) (by decide) 0

/-- If some listed file's removal fails, the deletion loop of
`cleanup_old_files` stops at the first such file and propagates the error. -/
theorem removeLoop_error (old : List DirEntry) (st : List DirEntry)
    (h : ∃ f ∈ old, f.removeOk = false) :
    ∃ msg, removeLoop old st = Except.error msg := by
  induction old generalizing st with
  | nil =>
    obtain ⟨f, hf, _⟩ := h
    exact absurd hf (List.not_mem_nil f)
  | cons g rest ih =>
    by_cases hg : g.removeOk
    · rw [removeLoop, if_pos hg]
      apply ih
      obtain ⟨f, hf, hfb⟩ := h
      rcases List.mem_cons.mp hf with rfl | hf2
      · exact absurd hg (by simp [hfb])
      · exact ⟨f, hf2, hfb⟩
    · exact ⟨g.name, by rw [removeLoop, if_neg hg]⟩

/-- Claim C9 (counterexample): two files, ceiling 1; removing the older file
`"a"` raises.  `cleanup_old_files` has no handler around `os.remove`, so the
call does not return normally: the error propagates to the caller. -/
theorem cleanup_remove_error_counterexample :
    cleanup_old_files [⟨"b", 2, true, true⟩, ⟨"a", 1, true, false⟩] 1
      = Except.error "a" := rfl

/-- Claim C9 (amended): an error raised by `os.remove` on an individual file
propagates out of `cleanup_old_files` (the deletion loop has no exception
handler): whenever the deletion list contains a file whose removal fails,
the call returns an error rather than returning normally. -/
theorem cleanup_remove_error_propagates (entries : List DirEntry) (M : Nat)
    (hgt : M < (filesOf entries).length)
    (hbad : ∃ f ∈ deletionList entries M, f.removeOk = false) :
    ∃ msg, cleanup_old_files entries M = Except.error msg := by
  unfold cleanup_old_files
  rw [if_pos hgt]
  exact removeLoop_error _ _ hbad

/-- Witness for the amended C9 at a concrete directory. -/
theorem cleanup_remove_error_propagates_witness :
    ∃ msg, cleanup_old_files [⟨"b", 2, true, true⟩, ⟨"a", 1, true, false⟩] 1
      = Except.error msg :=
  cleanup_remove_error_propagates [⟨"b", 2, true, true⟩, ⟨"a", 1, true, false⟩] 1
    (by decide) (by decide)

/-- When every listed removal succeeds, the deletion loop returns the state
with exactly the listed names removed. -/
theorem removeLoop_all_ok (old : List DirEntry) (st : List DirEntry)
    (h : ∀ f ∈ old, f.removeOk = true) :
    removeLoop old st
      = Except.ok (st.filter (fun e => old.all (fun f => e.name != f.name))) := by
  induction old generalizing st with
  | nil => simp [removeLoop]
  | cons g rest ih =>
    rw [removeLoop, if_pos (h g (List.mem_cons_self g rest))]
    rw [ih _ (fun f hf => h f (List.mem_cons_of_mem g hf))]
    congr 1
    rw [List.filter_filter]
    refine List.filter_congr (fun e _ => ?_)
    simp only [List.all_cons]
    exact Bool.and_comm _ _

/-- Claim C3 (counterexample): one regular file and a ceiling of 0 (so
N = 1 > M = 0): the claim demands that exactly 0 files remain, but the code
computes `old_files = files[:-0] = files[:0] = []` and deletes nothing, so
one file remains. -/
theorem cleanup_zero_ceiling_counterexample :
    cleanup_old_files [⟨"a", 0, true, true⟩] 0 = Except.ok [⟨"a", 0, true, true⟩] ∧
      (filesOf [⟨"a", 0, true, true⟩]).length = 1 :=
  ⟨rfl, rfl⟩

/-- Claim C3 (amended): for a directory of distinctly named entries with
injective modification times in which every removal succeeds, and any
ceiling `M` with `1 ≤ M < N` (the Python slice `files[:-max_files]` is
broken for `max_files = 0`), `cleanup_old_files` returns normally, exactly
`M` regular files remain, and every remaining regular file is strictly
newer than every deleted one -- the `M` most recently modified files are
the ones kept. -/
theorem cleanup_retains_most_recent (entries : List DirEntry) (M : Nat)
    (hnodup : (entries.map DirEntry.name).Nodup)
    (hinj : ∀ a ∈ filesOf entries, ∀ b ∈ filesOf entries, a.mtime = b.mtime → a = b)
    (hok : ∀ e ∈ entries, e.removeOk = true)
    (hM : 1 ≤ M) (hN : M < (filesOf entries).length) :
    ∃ st, cleanup_old_files entries M = Except.ok st ∧
      (filesOf st).length = M ∧
      ∀ a ∈ filesOf st, ∀ b ∈ filesOf entries, b ∉ st → b.mtime < a.mtime := by
  have hperm : List.Perm (List.insertionSort mtimeLe (filesOf entries))
      (filesOf entries) := List.perm_insertionSort mtimeLe _
  have hsort : List.Sorted mtimeLe (List.insertionSort mtimeLe (filesOf entries)) :=
    List.sorted_insertionSort mtimeLe _
  set sorted := List.insertionSort mtimeLe (filesOf entries) with hsorted
  have hlen : sorted.length = (filesOf entries).length := hperm.length_eq
  set old := sorted.take (sorted.length - M) with holddef
  set keep := sorted.drop (sorted.length - M) with hkeepdef
  have hdel : deletionList entries M = old := by
    unfold deletionList pySliceToNeg
    rw [if_neg (by omega : ¬M = 0), ← hsorted]
  have hsplit : old ++ keep = sorted := List.take_append_drop _ _
  have hkeeplen : keep.length = M := by
    rw [hkeepdef, List.length_drop]
    omega
  have hvalnodup : entries.Nodup := List.Nodup.of_map _ hnodup
  have hfilesnodup : (filesOf entries).Nodup := hvalnodup.filter _
  have hsortednodup : sorted.Nodup := hperm.nodup_iff.mpr hfilesnodup
  have hdisj : ∀ x, x ∈ old → x ∈ keep → False := by
    have h1 := hsortednodup
    rw [← hsplit, List.nodup_append] at h1
    exact fun x hx hk => h1.2.2 hx hk
  have hinjname : ∀ x ∈ entries, ∀ y ∈ entries, x.name = y.name → x = y :=
    fun x hx y hy => List.inj_on_of_nodup_map hnodup hx hy
  have holdsub : ∀ f ∈ old, f ∈ entries := by
    intro f hf
    exact List.mem_of_mem_filter (hperm.mem_iff.mp (List.take_subset _ _ hf))
  have hkeepsub : ∀ f ∈ keep, f ∈ filesOf entries :=
    fun f hf => hperm.mem_iff.mp (List.drop_subset _ _ hf)
  have hrun : cleanup_old_files entries M
      = Except.ok (entries.filter (fun e => old.all (fun f => e.name != f.name))) := by
    unfold cleanup_old_files
    rw [if_pos hN, hdel]
    exact removeLoop_all_ok _ _ (fun f hf => hok f (holdsub f hf))
  have hfs : filesOf (entries.filter (fun e => old.all (fun f => e.name != f.name)))
      = (filesOf entries).filter (fun e => old.all (fun f => e.name != f.name)) := by
    unfold filesOf
    rw [List.filter_filter, List.filter_filter]
    exact List.filter_congr (fun e _ => Bool.and_comm _ _)
  have hPold : ∀ f ∈ old, (old.all (fun g => f.name != g.name)) = false := by
    intro f hf
    rw [Bool.eq_false_iff]
    intro hall
    have h2 := List.all_eq_true.mp hall f hf
    simp at h2
  have hPkeep : ∀ e ∈ keep, (old.all (fun g => e.name != g.name)) = true := by
    intro e he
    rw [List.all_eq_true]
    intro g hg
    rw [bne_iff_ne]
    intro heq
    have h3 : e = g :=
      hinjname e (List.mem_of_mem_filter (hkeepsub e he)) g (holdsub g hg) heq
    exact hdisj e (h3 ▸ hg) he
  have hpermP : List.Perm
      ((filesOf entries).filter (fun e => old.all (fun f => e.name != f.name)))
      keep := by
    have h1 := List.Perm.filter (fun e => old.all (fun f => e.name != f.name)) hperm.symm
    rw [← hsplit, List.filter_append] at h1
    have hOldNil : (old.filter (fun e => old.all (fun f => e.name != f.name))) = [] :=
      List.filter_eq_nil_iff.mpr (fun f hf => by simp [hPold f hf])
    have hKeepSelf : (keep.filter (fun e => old.all (fun f => e.name != f.name))) = keep :=
      List.filter_eq_self.mpr hPkeep
    rw [hOldNil, hKeepSelf, List.nil_append] at h1
    exact h1
  refine ⟨_, hrun, ?_, ?_⟩
  · rw [hfs, hpermP.length_eq, hkeeplen]
  · intro a ha b hb hbn
    rw [hfs] at ha
    have haK : a ∈ keep := hpermP.mem_iff.mp ha
    have hbP : (old.all (fun f => b.name != f.name)) = false := by
      rw [Bool.eq_false_iff]
      intro hP
      exact hbn (List.mem_filter.mpr ⟨List.mem_of_mem_filter hb, hP⟩)
    obtain ⟨f, hfold, hfb⟩ := List.all_eq_false.mp hbP
    have hname : b.name = f.name := by simpa using hfb
    have hbf : b = f := hinjname b (List.mem_of_mem_filter hb) f (holdsub f hfold) hname
    have hpw : ∀ x ∈ old, ∀ y ∈ keep, mtimeLe x y := by
      have h4 := hsort
      rw [← hsplit] at h4
      exact (List.pairwise_append.mp h4).2.2
    have hle : b.mtime ≤ a.mtime := hpw b (hbf ▸ hfold) a haK
    have hne : b ≠ a := fun hEq => hdisj b (hbf ▸ hfold) (hEq ▸ haK)
    rcases Nat.lt_or_ge b.mtime a.mtime with h5 | h5
    · exact h5
    · exact absurd (hinj b hb a (hkeepsub a haK) (Nat.le_antisymm hle h5)) hne

/-- Witness for the amended C3 at a concrete directory: two files, ceiling
1; the older file is deleted, the newer remains. -/
theorem cleanup_retains_most_recent_witness :
    ∃ st, cleanup_old_files [⟨"a", 1, true, true⟩, ⟨"b", 2, true, true⟩] 1
        = Except.ok st ∧
      (filesOf st).length = 1 ∧
      ∀ a ∈ filesOf st,
        ∀ b ∈ filesOf [⟨"a", 1, true, true⟩, ⟨"b", 2, true, true⟩],
          b ∉ st → b.mtime < a.mtime :=
  cleanup_retains_most_recent [⟨"a", 1, true, true⟩, ⟨"b", 2, true, true⟩] 1
    (by decide) (by decide) (by decide) (by decide) (by decide)

end FfxivTts
